import Mathlib

/-!
Verification development for fcrepo-import-export-verify.

Each definition below is a shallow embedding of a piece of the Python
source (file and line references in the doc comments).  Network and
disk effects are passed in explicitly: HTTP responses become response
records, file contents become arguments, exceptions and `sys.exit`
become an explicit outcome type.  Python strings are modelled as Lean
`String`s (and, where character-level arithmetic matters, as `List
Char`).
-/

namespace FcrepoVerify

/-- Python `str.startswith`, evaluated on the underlying character
list. -/
def pyStartsWith (s pre : String) : Bool :=
  pre.data.isPrefixOf s.data

/-- Python `str.endswith`, evaluated on the underlying character
list. -/
def pyEndsWith (s suf : String) : Bool :=
  suf.data.isSuffixOf s.data

/-- `EXT_BINARY_INTERNAL` (constants.py). -/
def EXT_BINARY_INTERNAL : String := ".binary"

/-- `EXT_BINARY_EXTERNAL` (constants.py). -/
def EXT_BINARY_EXTERNAL : String := ".external"

/-- `LDP_NON_RDF_SOURCE` (constants.py). -/
def LDP_NON_RDF_SOURCE : String := "http://www.w3.org/ns/ldp#NonRDFSource"

/-- A pair of Python variables `verified, verification` as assigned by
the verifier loop. -/
abbrev Verdict := Bool × String

/-- The binary branch of `FedoraImportExportVerifier.execute`
(verifier.py 136-147), translated statement by statement.  The source
first runs `if destination.origpath.endswith(EXT_BINARY_EXTERNAL)` and
assigns `verified, verification = False, "external resource"`, but the
digest comparison that follows is a plain `if`/`else` (not `elif`), so
its assignments always run and replace the external-resource pair.
`externalCheckResult` records the value after the first statement; the
function's result is the value after the second. -/
def binaryVerdict (destOrigpath origSha1 destSha1 : String) : Verdict :=
  let externalCheckResult : Option Verdict :=
    if pyEndsWith destOrigpath EXT_BINARY_EXTERNAL then
      some (false, "external resource")
    else
      none
  let digestCheckResult : Verdict :=
    if origSha1 = destSha1 then
      (true, origSha1)
    else
      (false, origSha1 ++ " != " ++ destSha1)
  -- the second pair of assignments is unconditional, so it is the result
  let _ := externalCheckResult
  digestCheckResult

/-- C1: for every binary pair where both sides yield a digest, equal
digests give verified=true with the shared digest as explanation, and
unequal digests give verified=false with explanation
`<orig> != <dest>`. -/
theorem binary_digest_verdict (destOrigpath a b : String) :
    (a = b → binaryVerdict destOrigpath a b = (true, a)) ∧
    (a ≠ b → binaryVerdict destOrigpath a b = (false, a ++ " != " ++ b)) := by
  refine ⟨fun h => ?_, fun h => ?_⟩
  · subst h
    simp [binaryVerdict]
  · simp [binaryVerdict, h]

/-- Witness for C1 at concrete digests, covering both hypotheses. -/
theorem binary_digest_verdict_witness :
    (("abc" : String) = "abc" ∧
      binaryVerdict "/export/x.binary" "abc" "abc" = (true, "abc")) ∧
    (("abc" : String) ≠ "def" ∧
      binaryVerdict "/export/x.binary" "abc" "def" =
        (false, "abc" ++ " != " ++ "def")) :=
  ⟨⟨rfl, (binary_digest_verdict "/export/x.binary" "abc" "abc").1 rfl⟩,
   ⟨by decide,
    (binary_digest_verdict "/export/x.binary" "abc" "def").2 (by decide)⟩⟩

/-- C4: evaluating the binary branch at a destination carrying the
`.external` suffix.  The source's "external resource" assignment is
immediately overwritten by the digest comparison, so the emitted
verdict is the digest pass/fail, not the distinguished state the spec
describes. -/
theorem external_destination_overwritten :
    binaryVerdict "/export/x.external" "abc" "def" = (false, "abc != def") ∧
    (binaryVerdict "/export/x.external" "abc" "def").2 ≠ "external resource" ∧
    binaryVerdict "/export/y.external" "abc" "abc" = (true, "abc") := by
  refine ⟨by decide, by decide, by decide⟩

/-! ## `FedoraResource.lookup_sha1` (resources.py 121-130)

The metadata GET is modelled by its status code and body text.  The
regular expression `premis:hasMessageDigest[\s]+<urn:sha1:(.+?)>` is
implemented directly as a scanner over the body's characters:
`re.search` tries the pattern at each position, leftmost first; `[\s]+`
is greedy, and since the literal `<` that follows is not whitespace the
greedy run never needs backtracking; the lazy group `(.+?)` captures
the shortest non-empty run (of non-newline characters, since `.` does
not match a newline) before the next `>`. -/

/-- Characters matched by the regex class `[\s]`. -/
def isRegexSpaceChar (c : Char) : Bool :=
  c = ' ' || c = '\t' || c = '\n' || c = '\r' || c = '\x0b' || c = '\x0c'

/-- Match a literal at the front of the input, returning the rest. -/
def stripLit : List Char → List Char → Option (List Char)
  | [], rest => some rest
  | _ :: _, [] => none
  | l :: ls, c :: cs => if c = l then stripLit ls cs else none

/-- Greedily drop whitespace characters. -/
def dropSpaceRun : List Char → List Char
  | [] => []
  | c :: cs => if isRegexSpaceChar c then dropSpaceRun cs else c :: cs

/-- `[\s]+`: at least one whitespace character, then the greedy rest. -/
def matchSpaceRun : List Char → Option (List Char)
  | [] => none
  | c :: cs => if isRegexSpaceChar c then some (dropSpaceRun cs) else none

/-- The lazy group continuation: accumulate non-newline characters
until the closing `>`. -/
def captureGroupLoop (acc : List Char) : List Char → Option (List Char)
  | [] => none
  | c :: cs =>
    if c = '>' then some acc.reverse
    else if c = '\n' then none
    else captureGroupLoop (c :: acc) cs

/-- `(.+?)>`: a non-empty lazy capture terminated by `>`. -/
def captureGroup : List Char → Option (List Char)
  | [] => none
  | c :: cs => if c = '\n' then none else captureGroupLoop [c] cs

/-- Try the whole PREMIS digest pattern at the current position. -/
def matchDigestAt (s : List Char) : Option (List Char) :=
  match stripLit "premis:hasMessageDigest".data s with
  | none => none
  | some r1 =>
    match matchSpaceRun r1 with
    | none => none
    | some r2 =>
      match stripLit "<urn:sha1:".data r2 with
      | none => none
      | some r3 => captureGroup r3

/-- `re.search` for the PREMIS digest pattern: leftmost match wins. -/
def searchDigest : List Char → Option (List Char)
  | [] => none
  | c :: cs =>
    match matchDigestAt (c :: cs) with
    | some g => some g
    | none => searchDigest cs

/-- `FedoraResource.lookup_sha1` (resources.py 121-130): `result` is
initialised to the empty string and replaced only when the response
status is 200 and the body matches the PREMIS digest pattern. -/
def lookup_sha1 (status_code : Nat) (body : List Char) : String :=
  if status_code = 200 then
    match searchDigest body with
    | some d => String.mk d
    | none => ""
  else ""

/-- C10: a non-200 metadata response, or a body without the PREMIS
digest pattern, makes `lookup_sha1` return the empty string (it never
raises), and the verifier's digest comparison against any actual local
digest (a non-empty hex string) then produces a mismatch failure
verdict rather than an exception. -/
theorem lookup_sha1_fallback (status_code : Nat) (body : List Char)
    (destOrigpath destSha1 : String)
    (h : status_code ≠ 200 ∨ searchDigest body = none)
    (hd : destSha1 ≠ "") :
    lookup_sha1 status_code body = "" ∧
    binaryVerdict destOrigpath (lookup_sha1 status_code body) destSha1 =
      (false, "" ++ " != " ++ destSha1) := by
  have hempty : lookup_sha1 status_code body = "" := by
    rcases h with h | h
    · simp [lookup_sha1, h]
    · simp [lookup_sha1, h]
  refine ⟨hempty, ?_⟩
  rw [hempty]
  have : ("" : String) ≠ destSha1 := fun e => hd e.symm
  simp [binaryVerdict, this]

/-- Witness for C10: a 404 response and a 200 response whose body lacks
the pattern, both compared against a concrete local digest. -/
theorem lookup_sha1_fallback_witness :
    ((404 : Nat) ≠ 200 ∨ searchDigest "no digest here".data = none) ∧
    ("da39a3ee" : String) ≠ "" ∧
    lookup_sha1 404 "anything".data = "" ∧
    lookup_sha1 200 "no digest here".data = "" ∧
    binaryVerdict "/export/x.binary" (lookup_sha1 404 "anything".data)
      "da39a3ee" = (false, "" ++ " != " ++ "da39a3ee") :=
  ⟨Or.inl (by decide), by decide,
   (lookup_sha1_fallback 404 "anything".data "/export/x.binary" "da39a3ee"
      (Or.inl (by decide)) (by decide)).1,
   (lookup_sha1_fallback 200 "no digest here".data "/export/x.binary"
      "da39a3ee" (Or.inr (by decide)) (by decide)).1,
   (lookup_sha1_fallback 404 "anything".data "/export/x.binary" "da39a3ee"
      (Or.inl (by decide)) (by decide)).2⟩

/-! ## `relaxed_compare` (utils.py 66-92)

The graphs this tool compares are parsed from serialized resources and
are treated as sets of triples.  Blank-node canonicalization
(`rdflib.compare`) is the identity on the ground graphs modelled here,
so `graph_diff` is plain set difference.  rdflib's value equality
`Node.eq` is modelled on the fragment the tool exercises: IRIs compare
by identity, literals compare by lexical form once an absent datatype
is promoted to `xsd:string` (so an untyped literal equals its
`xsd:string`-typed form), a literal never equals an IRI, and a missing
counterpart (`None`) is never equal. -/

/-- The `xsd:string` datatype IRI. -/
def XSD_STRING : String := "http://www.w3.org/2001/XMLSchema#string"

/-- An RDF term: an IRI, or a literal with an optional datatype IRI. -/
inductive Term where
  | uri (val : String)
  | lit (lex : String) (datatype : Option String)
deriving DecidableEq

/-- `str(term)` as used when collecting child nodes. -/
def termStr : Term → String
  | .uri v => v
  | .lit lex _ => lex

/-- A subject/predicate/object triple. -/
abbrev Triple := Term × Term × Term

/-- An rdflib graph: a set of triples, carried as a duplicate-free
list (rdflib stores never hold duplicate triples). -/
abbrev RDFGraph := List Triple

/-- An absent datatype is promoted to `xsd:string`. -/
def promoteDatatype : Option String → String
  | none => XSD_STRING
  | some dt => dt

/-- rdflib `Node.eq` on the modelled fragment (value equality). -/
def termValueEq : Term → Term → Bool
  | .uri a, .uri b => a = b
  | .lit la da, .lit lb db =>
      promoteDatatype da = promoteDatatype db && la = lb
  | _, _ => false

/-- `o.eq(v)` where `v` may be `None` (no matching triple found). -/
def termValueEqOpt (o : Term) : Option Term → Bool
  | none => false
  | some v => termValueEq o v

/-- `graph.value(subject=s, predicate=p)`: the object of the first
triple with the given subject and predicate, if any. -/
def graphValue (g : RDFGraph) (s p : Term) : Option Term :=
  ((g.filter fun t => t.1 = s ∧ t.2.1 = p).head?).map (·.2.2)

/-- `graph1 == graph2` on the value level: the same set of triples. -/
def graphEq (g1 g2 : RDFGraph) : Bool :=
  (g1.all fun t => g2.contains t) && (g2.all fun t => g1.contains t)

/-- The triples of `g1` not present in `g2`. -/
def graphMinus (g1 g2 : RDFGraph) : RDFGraph :=
  g1.filter fun t => ¬ g2.contains t

/-- `rdflib.compare.graph_diff` on ground graphs: triples in both, only
in the first, and only in the second. -/
def graph_diff (g1 g2 : RDFGraph) : RDFGraph × RDFGraph × RDFGraph :=
  (g1.filter (fun t => g2.contains t), graphMinus g1 g2, graphMinus g2 g1)

/-- `relaxed_compare` (utils.py 66-92), clause by clause: short-circuit
on graph equality, then on differing triple counts, then check every
triple of the symmetric difference against the value for the same
subject and predicate on the other side of the difference. -/
def relaxed_compare (graph1 graph2 : RDFGraph) : Bool :=
  if graphEq graph1 graph2 then
    true
  else if graph1.length ≠ graph2.length then
    false
  else
    let d := graph_diff graph1 graph2
    let in_first := d.2.1
    let in_second := d.2.2
    (in_first.all fun t => termValueEqOpt t.2.2 (graphValue in_second t.1 t.2.1))
      &&
    (in_second.all fun t => termValueEqOpt t.2.2 (graphValue in_first t.1 t.2.1))

/-- The `==` short-circuit succeeds exactly on set-equal graphs. -/
theorem graphEq_iff (g1 g2 : RDFGraph) :
    graphEq g1 g2 = true ↔ (∀ t : Triple, t ∈ g1 ↔ t ∈ g2) := by
  simp only [graphEq, Bool.and_eq_true, List.all_eq_true]
  constructor
  · rintro ⟨a, b⟩ t
    constructor
    · intro ht
      simpa using a t ht
    · intro ht
      simpa using b t ht
  · intro h
    refine ⟨fun t ht => ?_, fun t ht => ?_⟩
    · simpa using (h t).1 ht
    · simpa using (h t).2 ht

/-- Set-equal duplicate-free lists have equal length. -/
theorem length_eq_of_sameTriples {g1 g2 : RDFGraph}
    (h1 : g1.Nodup) (h2 : g2.Nodup)
    (h : ∀ t : Triple, t ∈ g1 ↔ t ∈ g2) : g1.length = g2.length :=
  Nat.le_antisymm
    (List.Subperm.length_le
      (List.subperm_of_subset h1 fun t ht => (h t).1 ht))
    (List.Subperm.length_le
      (List.subperm_of_subset h2 fun t ht => (h t).2 ht))

/-- C2: `relaxed_compare` returns true on set-equal graphs, false when
the triple counts differ, and otherwise returns true iff every triple
of the symmetric difference has an object value-equal to the object
found on the other side of the difference for the same subject and
predicate; in particular, two graphs differing only in an untyped
versus `xsd:string`-typed literal for the same subject and predicate
compare as equal. -/
theorem relaxed_compare_spec (g1 g2 : RDFGraph)
    (h1 : g1.Nodup) (h2 : g2.Nodup) :
    ((∀ t : Triple, t ∈ g1 ↔ t ∈ g2) → relaxed_compare g1 g2 = true) ∧
    (g1.length ≠ g2.length → relaxed_compare g1 g2 = false) ∧
    (¬ (∀ t : Triple, t ∈ g1 ↔ t ∈ g2) → g1.length = g2.length →
      (relaxed_compare g1 g2 = true ↔
        (∀ t ∈ graphMinus g1 g2,
          termValueEqOpt t.2.2 (graphValue (graphMinus g2 g1) t.1 t.2.1)
            = true) ∧
        (∀ t ∈ graphMinus g2 g1,
          termValueEqOpt t.2.2 (graphValue (graphMinus g1 g2) t.1 t.2.1)
            = true))) ∧
    relaxed_compare
      [(Term.uri "http://ex/s", Term.uri "http://ex/p", Term.lit "5" none)]
      [(Term.uri "http://ex/s", Term.uri "http://ex/p",
        Term.lit "5" (some XSD_STRING))] = true := by
  refine ⟨fun h => ?_, fun h => ?_, fun hne hlen => ?_, by decide⟩
  · have : graphEq g1 g2 = true := (graphEq_iff g1 g2).2 h
    simp [relaxed_compare, this]
  · have hne : graphEq g1 g2 = false := by
      rcases Bool.eq_false_or_eq_true (graphEq g1 g2) with ht | hf
      · exact absurd (length_eq_of_sameTriples h1 h2 ((graphEq_iff g1 g2).1 ht)) h
      · exact hf
    simp [relaxed_compare, hne, h]
  · have hfalse : graphEq g1 g2 = false := by
      rcases Bool.eq_false_or_eq_true (graphEq g1 g2) with ht | hf
      · exact absurd ((graphEq_iff g1 g2).1 ht) hne
      · exact hf
    simp [relaxed_compare, hfalse, hlen, graph_diff, List.all_eq_true]

/-- Witness for C2: concrete duplicate-free graphs exercising the
equal-count branch (part one applied to set-equal graphs) and the
differing-count branch. -/
theorem relaxed_compare_spec_witness :
    ([( Term.uri "u", Term.uri "p", Term.lit "1" none )] : RDFGraph).Nodup ∧
    ([] : RDFGraph).Nodup ∧
    ([( Term.uri "u", Term.uri "p", Term.lit "1" none )] : RDFGraph).length
      ≠ ([] : RDFGraph).length ∧
    relaxed_compare
      [( Term.uri "u", Term.uri "p", Term.lit "1" none )] [] = false :=
  ⟨by decide, by decide, by decide,
   (relaxed_compare_spec
      [( Term.uri "u", Term.uri "p", Term.lit "1" none )] []
      (by decide) (by decide)).2.1 (by decide)⟩

/-! ## Path translation (resources.py 84-96 and 186-198)

Paths and URIs are handled character-wise here, so they are modelled
as `List Char`.  `urllib.parse.quote` is applied with its default
`safe="/"`: ASCII alphanumerics, `_.-~` and the slash pass through,
every other character is replaced by a percent escape of its byte
value (the model escapes the code point, which agrees with Python on
the single-byte characters appearing below). -/

/-- A Python string viewed as its characters. -/
abbrev PyStr := List Char

/-- Characters `urllib.parse.quote` leaves unchanged with the default
`safe="/"`. -/
def quoteSafe (c : Char) : Bool :=
  c.isAlpha || c.isDigit || c = '_' || c = '.' || c = '-' || c = '~' || c = '/'

/-- Uppercase hexadecimal digit. -/
def hexDigitChar (n : Nat) : Char :=
  if n < 10 then Char.ofNat ('0'.toNat + n)
  else Char.ofNat ('A'.toNat + (n - 10))

/-- The percent escape `%XX` of one character. -/
def percentEscape (c : Char) : PyStr :=
  ['%', hexDigitChar (c.toNat / 16 % 16), hexDigitChar (c.toNat % 16)]

/-- One character of `urllib.parse.quote`'s output. -/
def quoteChar (c : Char) : PyStr :=
  if quoteSafe c then [c] else percentEscape c

/-- `urllib.parse.quote` with the default safe set. -/
def pyQuote (s : PyStr) : PyStr :=
  (s.map quoteChar).flatten

/-- `FedoraResource` destination path for a repository-relative path
and a kind suffix (resources.py 84-96): `quote(self.data_dir +
self.relpath + suffix)`, where `suffix` is the configured RDF
extension for a structured resource and `.binary`/`.external` for a
binary one. -/
def fedoraDestpath (dataDir relpath suffix : PyStr) : PyStr :=
  pyQuote (dataDir ++ relpath ++ suffix)

/-- `LocalResource.relpath` (resources.py 143):
`self.origpath[len(self.data_dir):]`. -/
def localRelpath (dataDir origpath : PyStr) : PyStr :=
  origpath.drop dataDir.length

/-- `LocalResource._resolve_dest_path` with no remap configured
(resources.py 186-198): strip the suffix from the relative path
(`self.relpath[:-len(suffix)]`, which is the whole prefix for a
non-empty suffix and the empty string when the suffix is empty) and
prepend the repository base `scheme://netloc`. -/
def localDestpath (repobase dataDir origpath suffix : PyStr) : PyStr :=
  let relpath := localRelpath dataDir origpath
  let relative_path :=
    if suffix.length = 0 then []
    else relpath.take (relpath.length - suffix.length)
  repobase ++ relative_path

/-- Repository → filesystem → repository on a repository-relative
path: translate to the filesystem counterpart, translate that path
back to a repository URI, and take the part of the URI after the
repository base (its relative path). -/
def roundTrip (repobase dataDir relpath suffix : PyStr) : PyStr :=
  (localDestpath repobase dataDir
      (fedoraDestpath dataDir relpath suffix) suffix).drop repobase.length

/-- Counterexample to C3 as stated: a relative path containing a
space (a character `quote` escapes) does not survive the round trip —
the filesystem side keeps the escaped form `%20`. -/
theorem roundTrip_counterexample :
    roundTrip "http://localhost:8080".data "/export".data
        "/a b".data ".ttl".data = "/a%20b".data ∧
    roundTrip "http://localhost:8080".data "/export".data
        "/a b".data ".ttl".data ≠ "/a b".data := by
  refine ⟨by decide, by decide⟩

/-- `quote` is the identity on strings of safe characters. -/
theorem pyQuote_of_safe (s : PyStr) (h : ∀ c ∈ s, quoteSafe c = true) :
    pyQuote s = s := by
  induction s with
  | nil => rfl
  | cons c cs ih =>
    have hc : quoteSafe c = true := h c (List.mem_cons_self c cs)
    have hcs : ∀ x ∈ cs, quoteSafe x = true :=
      fun x hx => h x (List.mem_cons_of_mem c hx)
    simp [pyQuote, quoteChar, hc] at *
    simpa [pyQuote] using ih hcs

/-- C3 (amended): for every relative path, data directory and
non-empty kind suffix made of characters `quote` leaves unchanged,
translating repository → filesystem → repository yields the original
relative path. -/
theorem roundTrip_id (repobase dataDir relpath suffix : PyStr)
    (hd : ∀ c ∈ dataDir, quoteSafe c = true)
    (hr : ∀ c ∈ relpath, quoteSafe c = true)
    (hs : ∀ c ∈ suffix, quoteSafe c = true)
    (hs0 : suffix ≠ []) :
    roundTrip repobase dataDir relpath suffix = relpath := by
  have hall : ∀ c ∈ dataDir ++ relpath ++ suffix, quoteSafe c = true := by
    intro c hc
    rcases List.mem_append.1 hc with hc | hc
    · rcases List.mem_append.1 hc with hc | hc
      · exact hd c hc
      · exact hr c hc
    · exact hs c hc
  have hq : fedoraDestpath dataDir relpath suffix =
      dataDir ++ relpath ++ suffix := pyQuote_of_safe _ hall
  have hlen0 : suffix.length ≠ 0 := by
    simpa [List.length_eq_zero] using hs0
  unfold roundTrip localDestpath localRelpath
  rw [hq]
  have hdrop : (dataDir ++ relpath ++ suffix).drop dataDir.length
      = relpath ++ suffix := by
    rw [List.append_assoc]
    exact List.drop_left dataDir (relpath ++ suffix)
  rw [hdrop]
  simp only [hlen0, if_neg hlen0]
  have htake : (relpath ++ suffix).take
      ((relpath ++ suffix).length - suffix.length) = relpath := by
    have : (relpath ++ suffix).length - suffix.length = relpath.length := by
      simp
    rw [this]
    exact List.take_left relpath suffix
  rw [htake]
  exact List.drop_left repobase relpath

/-- Witness for C3's amended statement: a concrete safe relative path
for the structured kind and for the internal binary kind. -/
theorem roundTrip_id_witness :
    (∀ c ∈ "/export".data, quoteSafe c = true) ∧
    (∀ c ∈ "/rest/obj1".data, quoteSafe c = true) ∧
    (∀ c ∈ ".ttl".data, quoteSafe c = true) ∧
    (".ttl".data ≠ []) ∧
    roundTrip "http://localhost:8080".data "/export".data
        "/rest/obj1".data ".ttl".data = "/rest/obj1".data ∧
    roundTrip "http://localhost:8080".data "/export".data
        "/rest/obj1".data ".binary".data = "/rest/obj1".data :=
  ⟨by decide, by decide, by decide, by decide,
   roundTrip_id "http://localhost:8080".data "/export".data
     "/rest/obj1".data ".ttl".data (by decide) (by decide) (by decide)
     (by decide),
   roundTrip_id "http://localhost:8080".data "/export".data
     "/rest/obj1".data ".binary".data (by decide) (by decide) (by decide)
     (by decide)⟩

/-! ## The verification loop (verifier.py 101-202)

One iteration of the loop is modelled as a function of the yielded
path.  Network and disk materialization is passed in as two oracles
(one per side) returning an explicit outcome: a resource view, an
exception (caught by the loop's `except Exception`), or a `sys.exit`
(a `SystemExit` is not an `Exception`, so it escapes the `try`). -/

/-- `Resource.type`: the strings "binary", "rdf", "unknown". -/
inductive RType where
  | binary
  | rdf
  | unknown
deriving DecidableEq

/-- Outcome of running a piece of Python code. -/
inductive PyOutcome (α : Type) where
  | ok (val : α)
  | exc (msg : String)
  | exit (code : Nat)
deriving DecidableEq

/-- The fields of a constructed `FedoraResource`/`LocalResource` that
the loop reads. -/
structure ResourceView where
  rtype : RType
  origpath : String
  destpath : Option String
  reachable : Bool
  sha1 : String
  graph : RDFGraph
deriving DecidableEq

/-- The configuration fields the loop reads. -/
structure VerifierConfig where
  repo : String
  repobase : String
  dir : String
  bin : Bool
deriving DecidableEq

/-- What one loop iteration does with a yielded path. -/
inductive StepOutcome where
  | exited (code : Nat)
  | skipped
  | recorded (verified : Bool) (verification : String)
  | crashed (msg : String)
deriving DecidableEq

/-- The failure explanation built by the `except` clause
(verifier.py 167-170). -/
def excMessage (msg : String) : String :=
  "Object could not be verified: " ++ msg

/-- The loop body after the original resource was constructed
(verifier.py 110-165), with the `except Exception` conversion of
verifier.py 167-170 applied around it. -/
def processWithOrig (cfg : VerifierConfig)
    (materializeFedora materializeLocal : String → PyOutcome ResourceView)
    (iso : RDFGraph → RDFGraph → Bool)
    (filepath : String) (orig : ResourceView) : StepOutcome :=
  -- verifier.py 110-112: the only assignment `verified` can have
  -- received before the kind branches
  let pre : Option Verdict :=
    if !orig.reachable then some (false, "original not reachable") else none
  -- verifier.py 121-125: skip binaries and fcr:metadata when binaries
  -- were not exported
  if !cfg.bin &&
      (orig.rtype == RType.binary ||
        pyEndsWith orig.origpath "/fcr:metadata") then
    .skipped
  else
    -- verifier.py 127-134; reading a `destpath` attribute that was
    -- never assigned raises an AttributeError inside the try
    let destOutcome : PyOutcome (Option ResourceView) :=
      if pyStartsWith filepath cfg.repo then
        match orig.destpath with
        | none => .exc "AttributeError: destpath"
        | some dp =>
          match materializeLocal dp with
          | .ok d => .ok (some d)
          | .exc m => .exc m
          | .exit c => .exit c
      else if pyStartsWith filepath cfg.dir then
        match orig.destpath with
        | none => .exc "AttributeError: destpath"
        | some dp =>
          match materializeFedora dp with
          | .ok d => .ok (some d)
          | .exc m => .exc m
          | .exit c => .exit c
      else
        .ok none  -- the variable `destination` stays unbound
    match destOutcome with
    | .exit c => .exited c
    | .exc m => .recorded false (excMessage m)
    | .ok odest =>
      match orig.rtype, odest with
      | .binary, some dest =>
        -- verifier.py 136-147
        let v := binaryVerdict dest.origpath orig.sha1 dest.sha1
        .recorded v.1 v.2
      | .binary, none => .recorded false (excMessage "NameError: destination")
      | .rdf, some dest =>
        -- verifier.py 149-160
        if iso orig.graph dest.graph then
          .recorded true (toString orig.graph.length ++ " triples")
        else
          .recorded false
            (toString orig.graph.length ++ "+" ++
              toString dest.graph.length ++ " triples - mismatch")
      | .rdf, none => .recorded false (excMessage "NameError: destination")
      | .unknown, _ =>
        -- no verdict branch ran; `verified` holds the reachability
        -- assignment or is unbound (read at verifier.py 172, outside
        -- the try)
        match pre with
        | some v => .recorded v.1 v.2
        | none => .crashed "NameError: verified"

/-- One iteration of the loop for a non-`None` yielded path
(verifier.py 104-202): the original-side dispatch of lines 108-119
followed by the rest of the body.  A path matching neither
`config.repo` nor `config.repobase` reaches `sys.exit(1)`, which the
`except Exception` does not catch. -/
def processOne (cfg : VerifierConfig)
    (materializeFedora materializeLocal : String → PyOutcome ResourceView)
    (iso : RDFGraph → RDFGraph → Bool)
    (filepath : String) : StepOutcome :=
  if pyStartsWith filepath cfg.repo then
    match materializeFedora filepath with
    | .exit c => .exited c
    | .exc m => .recorded false (excMessage m)
    | .ok orig =>
      processWithOrig cfg materializeFedora materializeLocal iso filepath orig
  else if pyStartsWith filepath cfg.repobase then
    match materializeLocal filepath with
    | .exit c => .exited c
    | .exc m => .recorded false (excMessage m)
    | .ok orig =>
      processWithOrig cfg materializeFedora materializeLocal iso filepath orig
  else
    .exited 1

/-- The pure fields assigned by `LocalResource.__init__`
(resources.py 140-184) with no remap configured: kind classification
by suffix, the destination path where the source assigns the
attribute, and the error log of the unknown-kind branch.  The binary
branch's digest and the structured branch's parse are disk reads,
modelled at the loop level by the materialization oracles. -/
structure LocalInitView where
  rtype : RType
  external : Bool
  destpath : Option String
  logs : List String
deriving DecidableEq

/-- `LocalResource.__init__` (resources.py 140-184), pure parts. -/
def localResourceInit (repobase dataDir ext origpath : String) :
    LocalInitView :=
  if pyEndsWith origpath EXT_BINARY_INTERNAL ||
      pyEndsWith origpath EXT_BINARY_EXTERNAL then
    let ext' := if pyEndsWith origpath EXT_BINARY_EXTERNAL then
        EXT_BINARY_EXTERNAL else EXT_BINARY_INTERNAL
    { rtype := .binary,
      external := pyEndsWith origpath EXT_BINARY_EXTERNAL,
      destpath := some (String.mk (localDestpath repobase.data dataDir.data
        origpath.data ext'.data)),
      logs := [] }
  else if pyStartsWith origpath dataDir && pyEndsWith origpath ext then
    { rtype := .rdf, external := false,
      destpath := some (String.mk (localDestpath repobase.data dataDir.data
        origpath.data ext.data)),
      logs := [] }
  else
    { rtype := .unknown, external := false, destpath := none,
      logs := ["RDF resource lacks expected extension!"] }

/-- Counterexample to C5 as stated: a filesystem resource of unknown
kind is classified as unknown by `LocalResource`, but in the verifier
loop its path matches neither `config.repo` nor `config.repobase`, so
the run reaches `sys.exit(1)` instead of logging, excluding the
resource and continuing. -/
theorem unknown_kind_counterexample :
    (localResourceInit "http://localhost:8080" "/export" ".ttl"
        "/export/foo.xyz").rtype = RType.unknown ∧
    processOne
      { repo := "http://localhost:8080/rest",
        repobase := "http://localhost:8080",
        dir := "/export", bin := true }
      (fun _ => .exc "unused") (fun _ => .exc "unused") (fun _ _ => false)
      "/export/foo.xyz" = .exited 1 := by
  refine ⟨by decide, by decide⟩

/-- C5 (amended): a filesystem resource with neither a binary suffix
nor the configured RDF extension is classified unknown, logs the
extension error and receives no destination path; but the run does not
exclude it and continue — in the verifier loop such a path (which
matches neither the repository URI nor the repository base) triggers
the fatal `sys.exit(1)`. -/
theorem unknown_kind_amended (repobase dataDir ext origpath : String)
    (cfg : VerifierConfig)
    (materializeFedora materializeLocal : String → PyOutcome ResourceView)
    (iso : RDFGraph → RDFGraph → Bool)
    (h1 : pyEndsWith origpath EXT_BINARY_INTERNAL = false)
    (h2 : pyEndsWith origpath EXT_BINARY_EXTERNAL = false)
    (h3 : (pyStartsWith origpath dataDir && pyEndsWith origpath ext) = false)
    (h4 : pyStartsWith origpath cfg.repo = false)
    (h5 : pyStartsWith origpath cfg.repobase = false) :
    localResourceInit repobase dataDir ext origpath =
      { rtype := .unknown, external := false, destpath := none,
        logs := ["RDF resource lacks expected extension!"] } ∧
    processOne cfg materializeFedora materializeLocal iso origpath
      = .exited 1 := by
  constructor
  · simp [localResourceInit, h1, h2, h3]
  · simp [processOne, h4, h5]

/-- Witness for C5's amended statement at the counterexample's input. -/
theorem unknown_kind_amended_witness :
    pyEndsWith "/export/foo.xyz" EXT_BINARY_INTERNAL = false ∧
    pyEndsWith "/export/foo.xyz" EXT_BINARY_EXTERNAL = false ∧
    (pyStartsWith "/export/foo.xyz" "/export" &&
      pyEndsWith "/export/foo.xyz" ".ttl") = false ∧
    (localResourceInit "http://localhost:8080" "/export" ".ttl"
        "/export/foo.xyz").destpath = none ∧
    processOne
      { repo := "http://localhost:8080/rest",
        repobase := "http://localhost:8080",
        dir := "/export", bin := false }
      (fun _ => .exc "unused") (fun _ => .exc "unused") (fun _ _ => false)
      "/export/foo.xyz" = .exited 1 :=
  ⟨by decide, by decide, by decide,
   by
    rw [(unknown_kind_amended "http://localhost:8080" "/export" ".ttl"
      "/export/foo.xyz"
      { repo := "http://localhost:8080/rest",
        repobase := "http://localhost:8080", dir := "/export", bin := false }
      (fun _ => .exc "unused") (fun _ => .exc "unused") (fun _ _ => false)
      (by decide) (by decide) (by decide) (by decide) (by decide)).1],
   (unknown_kind_amended "http://localhost:8080" "/export" ".ttl"
      "/export/foo.xyz"
      { repo := "http://localhost:8080/rest",
        repobase := "http://localhost:8080", dir := "/export", bin := false }
      (fun _ => .exc "unused") (fun _ => .exc "unused") (fun _ _ => false)
      (by decide) (by decide) (by decide) (by decide) (by decide)).2⟩

/-! ## Counting and CSV emission (verifier.py 79-83 and 167-202) -/

/-- One CSV row, restricted to the fields the invariant concerns
(`number` is `str(total_count())` at the moment of writing). -/
structure CsvRow where
  number : Nat
  verified : Bool
  verification : String
deriving DecidableEq

/-- The loop's accumulating state: the two counters of verifier.py
79-80 and the rows written so far. -/
structure RunState where
  success_count : Nat
  failure_count : Nat
  rows : List CsvRow
deriving DecidableEq

/-- The verification loop over the per-iteration outcomes
(verifier.py 101-202): a skipped iteration (a `None` yield or the
`continue` of line 125) writes nothing; a recorded iteration first
increments exactly one counter (lines 172-178) and then writes a row
whose number is `success_count + failure_count` (lines 196-202); a
fatal exit or an exception escaping the `try` ends the run. -/
def runLoop : RunState → List StepOutcome → RunState
  | st, [] => st
  | st, StepOutcome.exited _ :: _ => st
  | st, StepOutcome.crashed _ :: _ => st
  | st, StepOutcome.skipped :: rest => runLoop st rest
  | st, StepOutcome.recorded v s :: rest =>
    let counted : RunState :=
      if !v then { st with failure_count := st.failure_count + 1 }
      else { st with success_count := st.success_count + 1 }
    runLoop
      { counted with rows := counted.rows ++
          [⟨counted.success_count + counted.failure_count, v, s⟩] }
      rest

/-- The invariant tying row numbers to the counters. -/
def rowNumbersOk (st : RunState) : Prop :=
  st.rows.map (·.number) = List.range' 1 st.rows.length ∧
  st.success_count + st.failure_count = st.rows.length

/-- Unfolding `runLoop` on a failure record. -/
theorem runLoop_recorded_false (st : RunState) (s : String)
    (rest : List StepOutcome) :
    runLoop st (StepOutcome.recorded false s :: rest) =
    runLoop
      { success_count := st.success_count,
        failure_count := st.failure_count + 1,
        rows := st.rows ++
          [⟨st.success_count + (st.failure_count + 1), false, s⟩] }
      rest := by
  simp [runLoop]

/-- Unfolding `runLoop` on a success record. -/
theorem runLoop_recorded_true (st : RunState) (s : String)
    (rest : List StepOutcome) :
    runLoop st (StepOutcome.recorded true s :: rest) =
    runLoop
      { success_count := st.success_count + 1,
        failure_count := st.failure_count,
        rows := st.rows ++
          [⟨st.success_count + 1 + st.failure_count, true, s⟩] }
      rest := by
  simp [runLoop]

/-- Appending one row numbered `length + 1` preserves the invariant's
row-number equation. -/
theorem rowNumbers_append (rows : List CsvRow) (r : CsvRow)
    (hmap : rows.map (·.number) = List.range' 1 rows.length)
    (hn : r.number = rows.length + 1) :
    (rows ++ [r]).map (·.number) = List.range' 1 (rows ++ [r]).length := by
  simp only [List.map_append, List.length_append, List.map_cons, List.map_nil,
    List.length_cons, List.length_nil, hmap, hn]
  rw [Nat.zero_add, List.range'_concat]
  simp [Nat.add_comm]

/-- `runLoop` preserves the row-number invariant. -/
theorem runLoop_preserves (outcomes : List StepOutcome) :
    ∀ st : RunState, rowNumbersOk st → rowNumbersOk (runLoop st outcomes) := by
  induction outcomes with
  | nil => intro st h; exact h
  | cons o rest ih =>
    intro st h
    cases o with
    | exited c => exact h
    | crashed m => exact h
    | skipped => exact ih st h
    | recorded v s =>
      rcases h with ⟨hmap, hsum⟩
      cases v with
      | false =>
        rw [runLoop_recorded_false]
        apply ih
        refine ⟨rowNumbers_append _ _ hmap (by simpa using by omega), ?_⟩
        simp only [List.length_append, List.length_cons, List.length_nil]
        omega
      | true =>
        rw [runLoop_recorded_true]
        apply ih
        refine ⟨rowNumbers_append _ _ hmap (by simpa using by omega), ?_⟩
        simp only [List.length_append, List.length_cons, List.length_nil]
        omega

/-- C6: starting from zeroed counters, the emitted rows are numbered
1, 2, …, n in order (so strictly increasing), and after every emission
— hence at the moment each record was emitted, obtained by running the
loop on the corresponding outcome prefix — the number of the last row
equals `success_count + failure_count`. -/
theorem sequence_numbers (outcomes : List StepOutcome) :
    (runLoop ⟨0, 0, []⟩ outcomes).rows.map (·.number)
      = List.range' 1 (runLoop ⟨0, 0, []⟩ outcomes).rows.length ∧
    (runLoop ⟨0, 0, []⟩ outcomes).success_count
        + (runLoop ⟨0, 0, []⟩ outcomes).failure_count
      = (runLoop ⟨0, 0, []⟩ outcomes).rows.length ∧
    ((runLoop ⟨0, 0, []⟩ outcomes).rows.map (·.number)).Chain' (· < ·) := by
  have h := runLoop_preserves outcomes ⟨0, 0, []⟩ (by constructor <;> rfl)
  refine ⟨h.1, h.2, ?_⟩
  rw [h.1]
  have : ∀ (s n : Nat), (List.range' s n).Chain' (· < ·) := by
    intro s n
    induction n generalizing s with
    | zero => simp
    | succ k ihk =>
      rw [List.range'_succ]
      cases k with
      | zero => simp
      | succ m =>
        rw [List.range'_succ]
        exact List.Chain'.cons (by omega)
          (by simpa [List.range'_succ] using ihk (s + 1))
  exact this 1 _

/-! ## `get_child_nodes` (utils.py 15-40)

The HEAD probe is modelled by its status code and the `type` link, the
GET body by the parsed graph. -/

/-- The parts of the HEAD response `get_child_nodes` reads:
`head.status_code` and, when present, `head.links["type"]["url"]`. -/
structure HeadResponse where
  status_code : Nat
  typeLink : Option String
deriving DecidableEq

/-- Result of child discovery: the child list, or a fatal exit with
the logged message (`logger.error` then `sys.exit(1)`). -/
inductive ChildNodesResult where
  | ok (children : List String)
  | fatal (logged : String) (exitCode : Nat)
deriving DecidableEq

/-- `get_child_nodes` (utils.py 15-40): a 200 or 307 probe is treated
as found — a binary node contributes its `fcr:metadata` sub-resource,
a structured node the objects of all configured containment
predicates; any other status logs and exits. -/
def get_child_nodes (node : String) (head : HeadResponse)
    (graph : RDFGraph) (predicates : List String) : ChildNodesResult :=
  if head.status_code = 200 ∨ head.status_code = 307 then
    if head.typeLink = some LDP_NON_RDF_SOURCE then
      .ok [node ++ "/fcr:metadata"]
    else
      .ok (predicates.flatMap fun cp =>
        (graph.filter fun t => t.2.1 = Term.uri cp).map fun t => termStr t.2.2)
  else
    .fatal "Error communicating with repository." 1

/-- C7: a probe status other than 200 and 307 makes child discovery
log and exit the process with the non-zero status 1; statuses 200 and
307 are non-error "found" outcomes that produce a child list for the
traversal to continue with. -/
theorem get_child_nodes_status (node : String) (head : HeadResponse)
    (graph : RDFGraph) (predicates : List String) :
    (head.status_code ≠ 200 → head.status_code ≠ 307 →
      get_child_nodes node head graph predicates =
        .fatal "Error communicating with repository." 1) ∧
    (head.status_code = 200 ∨ head.status_code = 307 →
      ∃ children, get_child_nodes node head graph predicates
        = .ok children) := by
  constructor
  · intro h200 h307
    have h : ¬ (head.status_code = 200 ∨ head.status_code = 307) := by
      rintro (h | h)
      · exact h200 h
      · exact h307 h
    simp [get_child_nodes, h]
  · intro h
    by_cases hb : head.typeLink = some LDP_NON_RDF_SOURCE
    · exact ⟨[node ++ "/fcr:metadata"], by simp [get_child_nodes, h, hb]⟩
    · exact ⟨predicates.flatMap fun cp =>
        (graph.filter fun t => t.2.1 = Term.uri cp).map fun t =>
          termStr t.2.2,
        by simp [get_child_nodes, h, hb]⟩

/-- Witness for C7: a 404 probe exits with status 1, a 200 probe on a
binary node yields its metadata child. -/
theorem get_child_nodes_status_witness :
    ((404 : Nat) ≠ 200) ∧ ((404 : Nat) ≠ 307) ∧
    get_child_nodes "http://localhost:8080/rest/x" ⟨404, none⟩ [] []
      = .fatal "Error communicating with repository." 1 ∧
    ((200 : Nat) = 200 ∨ (200 : Nat) = 307) ∧
    (∃ children,
      get_child_nodes "http://localhost:8080/rest/x"
        ⟨200, some LDP_NON_RDF_SOURCE⟩ [] [] = .ok children) :=
  ⟨by decide, by decide,
   (get_child_nodes_status "http://localhost:8080/rest/x" ⟨404, none⟩ [] []).1
     (by decide) (by decide),
   Or.inl rfl,
   (get_child_nodes_status "http://localhost:8080/rest/x"
      ⟨200, some LDP_NON_RDF_SOURCE⟩ [] []).2 (Or.inl rfl)⟩

/-! ## Remapped structured materialization (resources.py 166-179)

With a remap pair configured, `replace_strings_in_file` (utils.py
54-63) writes the rewritten content to a fresh temp file and the graph
is parsed from it; `os.remove` runs on the line after the parse, with
no try/finally around it.  The trace records whether the temp file was
created and whether it was removed before control left the
constructor. -/

/-- Observable effects of one structured local materialization. -/
structure MaterializeTrace where
  result : PyOutcome RDFGraph
  tempCreated : Bool
  tempRemoved : Bool
deriving DecidableEq

/-- The structured branch of `LocalResource.__init__` (resources.py
166-179).  `parseOrig` is the parse of the original file (no remap);
`parseTemp` the parse of the rewritten temp file (remap configured). -/
def localRdfMaterialize (mapFrom : Option (String × String))
    (parseOrig parseTemp : PyOutcome RDFGraph) : MaterializeTrace :=
  match mapFrom with
  | none => { result := parseOrig, tempCreated := false, tempRemoved := false }
  | some _ =>
    match parseTemp with
    | .ok g =>
      -- parse returned normally; the os.remove on line 179 runs
      { result := .ok g, tempCreated := true, tempRemoved := true }
    | .exc m =>
      -- the exception propagates before os.remove is reached
      { result := .exc m, tempCreated := true, tempRemoved := false }
    | .exit c =>
      { result := .exit c, tempCreated := true, tempRemoved := false }

/-- Counterexample to C8 as stated: with a remap configured and a
parse that raises, the temp file was created but not removed when the
materialization ends. -/
theorem temp_file_leak_counterexample :
    (localRdfMaterialize (some ("http://old", "http://new"))
        (.exc "unused") (.exc "bad turtle")).tempCreated = true ∧
    (localRdfMaterialize (some ("http://old", "http://new"))
        (.exc "unused") (.exc "bad turtle")).tempRemoved = false := by
  refine ⟨rfl, rfl⟩

/-- C8 (amended): with a remap pair configured the temp file is
removed before the materialization returns when parsing succeeds;
when parsing raises, the exception propagates and the temp file is
left behind. -/
theorem temp_file_scope (pair : String × String)
    (parseOrig : PyOutcome RDFGraph) (g : RDFGraph) (msg : String) :
    (localRdfMaterialize (some pair) parseOrig (.ok g)).tempRemoved = true ∧
    (localRdfMaterialize (some pair) parseOrig (.ok g)).result = .ok g ∧
    (localRdfMaterialize (some pair) parseOrig (.exc msg)).tempRemoved
      = false ∧
    (localRdfMaterialize (some pair) parseOrig (.exc msg)).result
      = .exc msg := by
  refine ⟨rfl, rfl, rfl, rfl⟩

/-! ## `LocalWalker` (iterators.py 32-51)

The directory tree is modelled as a finite tree of named entries; a
`scandir` path is its parent's path extended with the entry's name, so
identifiers are name lists from the root.  The Python work list pops
from the tail and `extend` appends children; here the stack's head is
the next pop, so a directory's children are pushed reversed in front —
the same traversal read from the other end of the list.  `__next__`
returns `None` for hidden entries (children not queued) and for
directories, and the entry's path for a plain file; `walkAll` collects
the yields of a run to exhaustion. -/

/-- A directory entry: a plain file or a directory with entries. -/
inductive FsEntry where
  | file (name : String)
  | dir (name : String) (children : List FsEntry)

/-- `basename` of an entry's path. -/
def entryName : FsEntry → String
  | .file n => n
  | .dir n _ => n

/-- The hidden-entry test of iterators.py 43:
`basename(current).startswith(".")`. -/
def hiddenName (n : String) : Bool :=
  pyStartsWith n "."

mutual

def entrySize : FsEntry → Nat
  | .file _ => 1
  | .dir _ cs => 1 + entrySizeList cs

def entrySizeList : List FsEntry → Nat
  | [] => 0
  | c :: cs => entrySize c + entrySizeList cs

end

/-- A pending stack item: the path of the parent directory (as the
name list from the root) and the entry itself. -/
abbrev StackItem := List String × FsEntry

/-- Total size of the entries still on the stack. -/
def stackWeight (stack : List StackItem) : Nat :=
  (stack.map fun it => entrySize it.2).sum

theorem entrySize_pos (e : FsEntry) : 1 ≤ entrySize e := by
  cases e with
  | file n => simp [entrySize]
  | dir n cs => simp [entrySize]

theorem entrySizeList_eq_sum (cs : List FsEntry) :
    entrySizeList cs = (cs.map entrySize).sum := by
  induction cs with
  | nil => rfl
  | cons c cs ih => simp [entrySizeList, ih]

theorem stackWeight_cons (pfx : List String) (e : FsEntry)
    (rest : List StackItem) :
    stackWeight ((pfx, e) :: rest) = entrySize e + stackWeight rest := by
  simp [stackWeight]

theorem stackWeight_push (path : List String) (cs : List FsEntry)
    (rest : List StackItem) :
    stackWeight ((cs.map fun c => (path, c)).reverse ++ rest)
      = entrySizeList cs + stackWeight rest := by
  have hcomp : (fun it : StackItem => entrySize it.2) ∘ (fun c => (path, c))
      = entrySize := rfl
  simp [stackWeight, List.map_reverse, List.sum_reverse, List.map_map,
    hcomp, entrySizeList_eq_sum]

/-- `LocalWalker.__next__` iterated to exhaustion, collecting every
yield (iterators.py 37-51): pop an item; a hidden basename yields
`None` without queueing anything; a plain file yields its path; a
directory queues its children and yields `None`. -/
def walkAll : List StackItem → List (Option (List String))
  | [] => []
  | (pfx, e) :: rest =>
    if hiddenName (entryName e) then
      none :: walkAll rest
    else
      match e with
      | .file n => some (pfx ++ [n]) :: walkAll rest
      | .dir n cs =>
        none ::
          walkAll ((cs.map fun c => (pfx ++ [n], c)).reverse ++ rest)
termination_by stack => stackWeight stack
decreasing_by
  · rw [stackWeight_cons]
    have := entrySize_pos e
    omega
  · rw [stackWeight_cons]
    simp only [entrySize]
    omega
  · rw [stackWeight_push, stackWeight_cons]
    simp only [entrySize]
    omega

mutual

/-- The files a run should report: every non-hidden plain file
reachable from the entry without crossing a hidden name. -/
def visibleFiles : List String → FsEntry → List (List String)
  | pfx, .file n => if hiddenName n then [] else [pfx ++ [n]]
  | pfx, .dir n cs =>
    if hiddenName n then [] else visibleFilesList (pfx ++ [n]) cs

def visibleFilesList : List String → List FsEntry → List (List String)
  | _, [] => []
  | pfx, c :: cs => visibleFiles pfx c ++ visibleFilesList pfx cs

end

/-- No two entries of the list share a name. -/
def distinctNames : List String → Bool
  | [] => true
  | n :: ns => (!ns.contains n) && distinctNames ns

mutual

/-- A well-formed directory tree: sibling names are distinct at every
level, as `scandir` guarantees for a real directory. -/
def wellFormed : FsEntry → Bool
  | .file _ => true
  | .dir _ cs => distinctNames (cs.map entryName) && wellFormedList cs

def wellFormedList : List FsEntry → Bool
  | [] => true
  | c :: cs => wellFormed c && wellFormedList cs

end

theorem entrySize_lt_of_mem {c : FsEntry} {cs : List FsEntry}
    (h : c ∈ cs) (n : String) : entrySize c < entrySize (.dir n cs) := by
  have hle : entrySize c ≤ entrySizeList cs := by
    induction cs with
    | nil => cases h
    | cons d ds ih =>
      rcases List.mem_cons.1 h with rfl | hmem
      · simp only [entrySizeList]
        omega
      · have := ih hmem
        simp only [entrySizeList]
        omega
  simp only [entrySize]
  omega

/-- Membership in the collected files of a list of entries comes from
one of the entries. -/
theorem visibleFilesList_mem (pfx : List String) (cs : List FsEntry)
    (p : List String) (hp : p ∈ visibleFilesList pfx cs) :
    ∃ c ∈ cs, p ∈ visibleFiles pfx c := by
  induction cs with
  | nil => simp [visibleFilesList] at hp
  | cons c cs ih =>
    rcases List.mem_append.1 hp with h | h
    · exact ⟨c, List.mem_cons_self c cs, h⟩
    · rcases ih h with ⟨c', hc', hpc'⟩
      exact ⟨c', List.mem_cons_of_mem c hc', hpc'⟩

/-- Every visible file path extends the starting path with the entry's
(non-hidden) name. -/
theorem visibleFiles_shape : ∀ (pfx : List String) (e : FsEntry)
    (p : List String), p ∈ visibleFiles pfx e →
    hiddenName (entryName e) = false ∧ ∃ q, p = pfx ++ entryName e :: q
  | pfx, .file n, p, hp => by
    simp only [visibleFiles] at hp
    by_cases hh : hiddenName n = true
    · rw [if_pos hh] at hp
      cases hp
    · rw [if_neg hh] at hp
      rcases List.mem_singleton.1 hp with rfl
      exact ⟨Bool.not_eq_true _ ▸ hh, [], by simp [entryName]⟩
  | pfx, .dir n cs, p, hp => by
    simp only [visibleFiles] at hp
    by_cases hh : hiddenName n = true
    · rw [if_pos hh] at hp
      cases hp
    · rw [if_neg hh] at hp
      rcases visibleFilesList_mem _ _ _ hp with ⟨c, hc, hpc⟩
      rcases visibleFiles_shape (pfx ++ [n]) c p hpc with ⟨_, q, hq⟩
      exact ⟨Bool.not_eq_true _ ▸ hh, entryName c :: q, by
        simpa [entryName] using hq⟩
termination_by _ e => entrySize e
decreasing_by
  exact entrySize_lt_of_mem hc n

/-- Every component of a visible file path is non-hidden, given the
starting path is. -/
theorem visibleFiles_nonhidden : ∀ (pfx : List String) (e : FsEntry)
    (p : List String), (∀ n ∈ pfx, hiddenName n = false) →
    p ∈ visibleFiles pfx e → ∀ n ∈ p, hiddenName n = false
  | pfx, .file m, p, hpfx, hp => by
    simp only [visibleFiles] at hp
    by_cases hh : hiddenName m = true
    · rw [if_pos hh] at hp
      cases hp
    · rw [if_neg hh] at hp
      rcases List.mem_singleton.1 hp with rfl
      intro n hn
      rcases List.mem_append.1 hn with h | h
      · exact hpfx n h
      · rcases List.mem_singleton.1 h with rfl
        exact Bool.not_eq_true _ ▸ hh
  | pfx, .dir m cs, p, hpfx, hp => by
    simp only [visibleFiles] at hp
    by_cases hh : hiddenName m = true
    · rw [if_pos hh] at hp
      cases hp
    · rw [if_neg hh] at hp
      rcases visibleFilesList_mem _ _ _ hp with ⟨c, hc, hpc⟩
      have hpfx' : ∀ n ∈ pfx ++ [m], hiddenName n = false := by
        intro n hn
        rcases List.mem_append.1 hn with h | h
        · exact hpfx n h
        · rcases List.mem_singleton.1 h with rfl
          exact Bool.not_eq_true _ ▸ hh
      exact visibleFiles_nonhidden (pfx ++ [m]) c p hpfx' hpc
termination_by _ e => entrySize e
decreasing_by
  exact entrySize_lt_of_mem hc m

mutual

/-- A well-formed entry contributes each visible file path once. -/
theorem visibleFiles_nodup : ∀ (pfx : List String) (e : FsEntry),
    wellFormed e = true → (visibleFiles pfx e).Nodup
  | _, .file n, _ => by
    by_cases hh : hiddenName n = true <;> simp [visibleFiles, hh]
  | pfx, .dir n cs, h => by
    by_cases hh : hiddenName n = true
    · simp [visibleFiles, hh]
    · simp only [visibleFiles]
      rw [if_neg hh]
      rw [wellFormed, Bool.and_eq_true] at h
      exact visibleFilesList_nodup (pfx ++ [n]) cs h.1 h.2

/-- Entries with distinct names contribute disjoint, duplicate-free
visible file lists. -/
theorem visibleFilesList_nodup : ∀ (pfx : List String) (cs : List FsEntry),
    distinctNames (cs.map entryName) = true → wellFormedList cs = true →
    (visibleFilesList pfx cs).Nodup
  | _, [], _, _ => by simp [visibleFilesList]
  | pfx, c :: cs, hd, hw => by
    rw [wellFormedList, Bool.and_eq_true] at hw
    rw [List.map_cons, distinctNames, Bool.and_eq_true] at hd
    refine List.Nodup.append (visibleFiles_nodup pfx c hw.1)
      (visibleFilesList_nodup pfx cs hd.2 hw.2) ?_
    intro p hp1 hp2
    rcases visibleFiles_shape pfx c p hp1 with ⟨_, q, hq⟩
    rcases visibleFilesList_mem pfx cs p hp2 with ⟨c', hc', hpc'⟩
    rcases visibleFiles_shape pfx c' p hpc' with ⟨_, q', hq'⟩
    have hname : entryName c = entryName c' := by
      have h1 := hq.symm.trans hq'
      have h2 := List.append_cancel_left h1
      injection h2
    have hnotmem : entryName c ∉ cs.map entryName := by
      simpa using hd.1
    exact hnotmem (hname ▸ List.mem_map_of_mem entryName hc')

end

/-- Collecting over a list of entries is the concatenation of each
entry's visible files. -/
theorem visibleFilesList_eq_flatMap (pfx : List String)
    (cs : List FsEntry) :
    cs.flatMap (fun c => visibleFiles pfx c) = visibleFilesList pfx cs := by
  induction cs with
  | nil => simp [visibleFilesList]
  | cons d ds ihd => simp [visibleFilesList, ihd]

theorem walkAll_nil : walkAll [] = [] := by
  rw [walkAll.eq_def]

theorem walkAll_cons_hidden (pfx : List String) (e : FsEntry)
    (rest : List StackItem) (hh : hiddenName (entryName e) = true) :
    walkAll ((pfx, e) :: rest) = none :: walkAll rest := by
  rw [walkAll.eq_def]
  simp [hh]

theorem walkAll_cons_file (pfx : List String) (n : String)
    (rest : List StackItem) (hh : hiddenName n = false) :
    walkAll ((pfx, .file n) :: rest)
      = some (pfx ++ [n]) :: walkAll rest := by
  rw [walkAll.eq_def]
  simp [entryName, hh]

theorem walkAll_cons_dir (pfx : List String) (n : String)
    (cs : List FsEntry) (rest : List StackItem)
    (hh : hiddenName n = false) :
    walkAll ((pfx, .dir n cs) :: rest)
      = none ::
          walkAll ((cs.map fun c => (pfx ++ [n], c)).reverse ++ rest) := by
  rw [walkAll.eq_def]
  simp [entryName, hh]

/-- The non-`None` yields of a walker run are, up to traversal order,
exactly the visible files of the entries still on the stack. -/
theorem walkAll_perm : ∀ (stack : List StackItem),
    List.Perm ((walkAll stack).filterMap id)
      (stack.flatMap fun it => visibleFiles it.1 it.2) := by
  intro stack
  induction stack using walkAll.induct with
  | case1 => simp [walkAll_nil]
  | case2 pfx e rest hh ih =>
    rw [walkAll_cons_hidden pfx e rest hh]
    simp only [List.filterMap_cons, List.flatMap_cons]
    have hvis : visibleFiles pfx e = [] := by
      cases e with
      | file n =>
        simp only [entryName] at hh
        simp [visibleFiles, hh]
      | dir n cs =>
        simp only [entryName] at hh
        simp [visibleFiles, hh]
    rw [hvis, List.nil_append]
    exact ih
  | case3 pfx rest n hh ih =>
    simp only [entryName, Bool.not_eq_true] at hh
    rw [walkAll_cons_file pfx n rest hh]
    simp only [List.filterMap_cons, List.flatMap_cons]
    have hvis : visibleFiles pfx (.file n) = [pfx ++ [n]] := by
      simp [visibleFiles, hh]
    rw [hvis]
    exact ih.cons _
  | case4 pfx rest n cs hh ih =>
    simp only [entryName, Bool.not_eq_true] at hh
    rw [walkAll_cons_dir pfx n cs rest hh]
    simp only [List.filterMap_cons, List.flatMap_cons]
    have hvis : visibleFiles pfx (.dir n cs)
        = visibleFilesList (pfx ++ [n]) cs := by
      simp [visibleFiles, hh]
    rw [hvis]
    refine ih.trans ?_
    rw [List.flatMap_append]
    refine List.Perm.append ?_ (List.Perm.refl _)
    have h1 : List.Perm
        ((cs.map fun c => (pfx ++ [n], c)).reverse.flatMap fun it =>
          visibleFiles it.1 it.2)
        ((cs.map fun c => (pfx ++ [n], c)).flatMap fun it =>
          visibleFiles it.1 it.2) :=
      (List.reverse_perm _).flatMap_right _
    refine h1.trans ?_
    rw [List.flatMap_map]
    have hfl : (cs.flatMap fun a =>
        visibleFiles ((pfx ++ [n], a)).1 ((pfx ++ [n], a)).2)
        = visibleFilesList (pfx ++ [n]) cs :=
      visibleFilesList_eq_flatMap _ _
    rw [hfl]

/-- Counting a `some` yield is counting in the flattened yields. -/
theorem count_some_filterMap (ys : List (Option (List String)))
    (p : List String) :
    ys.count (some p) = (ys.filterMap id).count p := by
  induction ys with
  | nil => rfl
  | cons o rest ih =>
    cases o with
    | none => simpa [List.count_cons] using ih
    | some q => simp [List.count_cons, ih]

/-- Permutations preserve counting, for any `BEq` instance. -/
theorem bcount_perm {α : Type} [BEq α] {l₁ l₂ : List α}
    (h : List.Perm l₁ l₂) (a : α) : l₁.count a = l₂.count a :=
  h.countP_eq _

/-- In a duplicate-free list every member is counted once, for any
lawful `BEq` instance. -/
theorem count_one_of_nodup_mem {α : Type} [BEq α] [LawfulBEq α]
    {l : List α} {a : α} (d : l.Nodup) (h : a ∈ l) : l.count a = 1 := by
  induction l with
  | nil => cases h
  | cons b l ih =>
    rcases List.nodup_cons.1 d with ⟨hb, hl⟩
    rcases List.mem_cons.1 h with rfl | hmem
    · rw [List.count_cons_self, List.count_eq_zero.2 hb]
    · have hne : a ≠ b := fun e => hb (e ▸ hmem)
      rw [List.count_cons_of_ne hne]
      exact ih hl hmem

/-- C9: on a well-formed tree the walker yields no path with a hidden
component (in particular nothing under a hidden directory and no
hidden basename), yields every non-hidden reachable plain file exactly
once, and yields `None` for everything else (hidden entries and
directories). -/
theorem walker_spec (root : FsEntry) (h : wellFormed root = true) :
    (∀ p : List String, some p ∈ walkAll [([], root)] →
      (∀ n ∈ p, hiddenName n = false) ∧ p ∈ visibleFiles [] root) ∧
    (∀ p : List String, p ∈ visibleFiles [] root →
      (walkAll [([], root)]).count (some p) = 1) ∧
    (∀ o ∈ walkAll [([], root)],
      o = none ∨ ∃ p, o = some p ∧ p ∈ visibleFiles [] root) := by
  have hperm := walkAll_perm [([], root)]
  have hflat : ([(([] : List String), root)].flatMap fun it =>
      visibleFiles it.1 it.2) = visibleFiles [] root := by
    simp
  rw [hflat] at hperm
  have hmem : ∀ p : List String,
      some p ∈ walkAll [([], root)] ↔ p ∈ visibleFiles [] root := by
    intro p
    rw [← hperm.mem_iff, List.mem_filterMap]
    constructor
    · intro hmm
      exact ⟨some p, hmm, rfl⟩
    · rintro ⟨o, ho, hid⟩
      cases o with
      | none => simp at hid
      | some q =>
        have hqp : q = p := Option.some.inj hid
        rw [hqp] at ho
        exact ho
  refine ⟨?_, ?_, ?_⟩
  · intro p hp
    have hvis := (hmem p).1 hp
    exact ⟨visibleFiles_nonhidden [] root p (by simp) hvis, hvis⟩
  · intro p hp
    rw [count_some_filterMap, bcount_perm hperm p]
    exact count_one_of_nodup_mem (visibleFiles_nodup [] root h) hp
  · intro o ho
    cases o with
    | none => exact Or.inl rfl
    | some p => exact Or.inr ⟨p, rfl, (hmem p).1 ho⟩

/-- A concrete directory tree for the C9 witness. -/
def fsExample : FsEntry :=
  .dir "export"
    [.file "a.ttl",
     .dir ".git" [.file "cfg"],
     .file ".hidden",
     .dir "sub" [.file "b.binary"]]

/-- Witness for C9 at a concrete tree: the tree is well-formed and the
walker yields the visible file `export/sub/b.binary` exactly once. -/
theorem walker_spec_witness :
    wellFormed fsExample = true ∧
    ["export", "sub", "b.binary"] ∈ visibleFiles [] fsExample ∧
    (walkAll [([], fsExample)]).count
      (some ["export", "sub", "b.binary"]) = 1 :=
  ⟨by decide, by decide,
   (walker_spec fsExample (by decide)).2.1 ["export", "sub", "b.binary"]
     (by decide)⟩

end FcrepoVerify
